import Mathlib

/-!
Shallow embedding of `cmd/bundleresolver/main.go` (arimura/bundleresolver).

Strings are modelled by Lean `String` / `List Char`.  Go stdlib helpers used
by the source (`strings.TrimSpace`, `strings.Split`, `strings.Contains`,
`strings.TrimSuffix`, `strings.EqualFold`, `url.QueryEscape`,
`url.Values.Get`, `fmt`'s `%q` verb) are embedded below under `go*` names.
Network effects (`httpClient.Get` plus the response-body interpretation that
follows each call: JSON decoding for the iTunes lookup, goquery
selector extraction for the Play pages) are modelled by an oracle `Net`
given as an explicit argument; every resolver returns, besides the Go
function's results, the list of URLs it requested, in order.
-/

namespace BundleResolver

/-- The byte set of Go `unicode.IsSpace` (`strings.TrimSpace` trims these):
`\t \n \v \f \r` space, NEL, NBSP and the Unicode space separators. -/
def goIsSpace (c : Char) : Bool :=
  c = ' ' || c = '\t' || c = '\n' || c = '\x0b' || c = '\x0c' || c = '\r' ||
  c.toNat = 0x85 || c.toNat = 0xA0 || c.toNat = 0x1680 ||
  (decide (0x2000 ≤ c.toNat) && decide (c.toNat ≤ 0x200A)) ||
  c.toNat = 0x2028 || c.toNat = 0x2029 || c.toNat = 0x202F ||
  c.toNat = 0x205F || c.toNat = 0x3000

/-- Drop the longest suffix of `cs` whose characters satisfy `p`. -/
def dropTrailing (p : Char → Bool) (cs : List Char) : List Char :=
  ((cs.reverse).dropWhile p).reverse

/-- Character-list core of `strings.TrimSpace`. -/
def goTrimList (cs : List Char) : List Char :=
  dropTrailing goIsSpace (cs.dropWhile goIsSpace)

/-- Go `strings.TrimSpace`. -/
def goTrimSpace (s : String) : String :=
  ⟨goTrimList s.data⟩

/-- Split a character list at every occurrence of `sep` (the list-level
meaning of Go `strings.Split` for a one-character separator; also used to
embed the `(\.`…`)+` regex structure).  The result is always non-empty. -/
def splitOnChar (sep : Char) : List Char → List (List Char)
  | [] => [[]]
  | c :: cs =>
    if c = sep then [] :: splitOnChar sep cs
    else
      match splitOnChar sep cs with
      | [] => [[c]]
      | l :: ls => (c :: l) :: ls

/-- Join character lists with a single `sep` between consecutive pieces
(inverse of `splitOnChar`). -/
def joinWith (sep : Char) : List (List Char) → List Char
  | [] => []
  | [l] => l
  | l :: l' :: ls => l ++ sep :: joinWith sep (l' :: ls)

/-- Cut a list at the first occurrence of `sep`: the part before it and,
when `sep` occurs, the part after it. -/
def cutAtChar (sep : Char) : List Char → List Char × Option (List Char)
  | [] => ([], none)
  | c :: cs =>
    if c = sep then ([], some cs)
    else
      let r := cutAtChar sep cs
      (c :: r.1, r.2)

/-- Is `needle` a contiguous subsequence of the list? (Go `strings.Contains`
at character level.) -/
def containsSeq (needle : List Char) : List Char → Bool
  | [] => needle.isEmpty
  | c :: cs => needle.isPrefixOf (c :: cs) || containsSeq needle cs

/-- Go `strings.Contains`. -/
def goContains (s sub : String) : Bool :=
  containsSeq sub.data s.data

/-- Go `strings.HasPrefix`. -/
def goStartsWith (s pre : String) : Bool :=
  pre.data.isPrefixOf s.data

/-- Go `strings.TrimSuffix`: drop `suf` when it is a suffix, else return `s`
unchanged. -/
def goTrimSuffix (s suf : String) : String :=
  if suf.data.isSuffixOf s.data then ⟨s.data.take (s.data.length - suf.data.length)⟩ else s

/-- Go `strings.EqualFold`, modelled with `Char.toLower` as the case folding
(the sources only ever compare package-name characters, which are ASCII). -/
def goEqualFold (a b : String) : Bool :=
  a.data.map Char.toLower == b.data.map Char.toLower

/-- Uppercase hexadecimal digit, for `url.QueryEscape`'s `%XX` escapes. -/
def hexDigitUpper (n : Nat) : Char :=
  if n < 10 then Char.ofNat ('0'.toNat + n) else Char.ofNat ('A'.toNat + n - 10)

/-- Lowercase hexadecimal digit, for `strconv.Quote`'s `\xhh` escapes. -/
def hexDigitLower (n : Nat) : Char :=
  if n < 10 then Char.ofNat ('0'.toNat + n) else Char.ofNat ('a'.toNat + n - 10)

/-- UTF-8 bytes of a character, as natural numbers. -/
def utf8Bytes (c : Char) : List Nat :=
  let n := c.toNat
  if n < 0x80 then [n]
  else if n < 0x800 then [0xC0 + n / 0x40, 0x80 + n % 0x40]
  else if n < 0x10000 then
    [0xE0 + n / 0x1000, 0x80 + (n / 0x40) % 0x40, 0x80 + n % 0x40]
  else
    [0xF0 + n / 0x40000, 0x80 + (n / 0x1000) % 0x40, 0x80 + (n / 0x40) % 0x40, 0x80 + n % 0x40]

/-- One `%XX` escape for a byte. -/
def percentByte (b : Nat) : List Char :=
  ['%', hexDigitUpper (b / 16), hexDigitUpper (b % 16)]

/-- The characters `url.QueryEscape` leaves unescaped. -/
def isUnreservedQuery (c : Char) : Bool :=
  c.isAlphanum || c = '-' || c = '_' || c = '.' || c = '~'

/-- Go `url.QueryEscape`: unreserved characters pass through, space becomes
`+`, everything else becomes `%XX` per UTF-8 byte. -/
def queryEscape (s : String) : String :=
  ⟨(s.data.map fun c =>
      if isUnreservedQuery c then [c]
      else if c = ' ' then ['+']
      else ((utf8Bytes c).map percentByte).flatten).flatten⟩

/-- Hexadecimal digit value (Go `net/url`'s `unhex`). -/
def hexVal (c : Char) : Option Nat :=
  if c.isDigit then some (c.toNat - '0'.toNat)
  else if decide ('a'.toNat ≤ c.toNat) && decide (c.toNat ≤ 'f'.toNat) then
    some (c.toNat - 'a'.toNat + 10)
  else if decide ('A'.toNat ≤ c.toNat) && decide (c.toNat ≤ 'F'.toNat) then
    some (c.toNat - 'A'.toNat + 10)
  else none

/-- Go `url.QueryUnescape` on a character list: `+` becomes space, `%XX`
decodes to the code point of the byte (the sources only meet ASCII here),
a malformed escape is an error (`none`). -/
def queryUnescape : List Char → Option (List Char)
  | [] => some []
  | '%' :: a :: b :: rest =>
    match hexVal a, hexVal b with
    | some x, some y =>
      match queryUnescape rest with
      | some r => some (Char.ofNat (16 * x + y) :: r)
      | none => none
    | _, _ => none
  | '%' :: _ => none
  | '+' :: rest =>
    match queryUnescape rest with
    | some r => some (' ' :: r)
    | none => none
  | c :: rest =>
    match queryUnescape rest with
    | some r => some (c :: r)
    | none => none

/-- One character of Go `strconv.Quote` (the `%q` verb): standard escapes,
`\xhh` for other ASCII control bytes; printable characters pass through
(non-printable non-ASCII code points, which `%q` would render as `\u`
escapes, do not occur in this development and pass through unchanged). -/
def goQuoteChar (c : Char) : List Char :=
  if c = '"' then ['\\', '"']
  else if c = '\\' then ['\\', '\\']
  else if c = '\x07' then ['\\', 'a']
  else if c = '\x08' then ['\\', 'b']
  else if c = '\x0c' then ['\\', 'f']
  else if c = '\n' then ['\\', 'n']
  else if c = '\r' then ['\\', 'r']
  else if c = '\t' then ['\\', 't']
  else if c = '\x0b' then ['\\', 'v']
  else if decide (c.toNat < 0x20) || c.toNat = 0x7f then
    ['\\', 'x', hexDigitLower (c.toNat / 16), hexDigitLower (c.toNat % 16)]
  else [c]

/-- Go `fmt`'s `%q` for strings (`strconv.Quote`). -/
def goQuote (s : String) : String :=
  ⟨'"' :: (s.data.map goQuoteChar).flatten ++ ['"']⟩

/-! ## Data model (`main.go` lines 24-34, 84-88) -/

/-- `type Field string` (main.go line 25). -/
abbrev Field := String

/-- `FieldName Field = "name"` (main.go line 28). -/
def FieldName : Field := "name"

/-- `FieldPublisher Field = "publisher"` (main.go line 29). -/
def FieldPublisher : Field := "publisher"

/-- `FieldURL Field = "url"` (main.go line 30). -/
def FieldURL : Field := "url"

/-- `allowedFields` (main.go line 33); `fieldSet` is its membership set, and
the second `init` sorts the list, a no-op on this already-sorted value. -/
def allowedFields : List Field := [FieldName, FieldPublisher, FieldURL]

/-- `type record struct` (main.go lines 84-88). -/
structure record where
  Name : String := ""
  Publisher : String := ""
  URL : String := ""
deriving DecidableEq, Repr

/-- Result of a resolver: the Go `(record, error)` pair (`err = none` for a
nil error) plus the instrumentation trace of URLs requested from the
network, in request order. -/
structure Resolved where
  out : record
  err : Option String
  trace : List String
deriving DecidableEq, Repr

/-- One `httpClient.Get`: either a transport error or a response carrying
`resp.StatusCode`, `resp.Status` and the interpreted body. -/
inductive HttpOutcome (β : Type) where
  | transportError (msg : String)
  | response (statusCode : Nat) (status : String) (body : β)
deriving DecidableEq, Repr

/-- Decoded body of one iTunes lookup result entry (main.go lines 209-213). -/
structure IOSResult where
  trackName : String := ""
  sellerName : String := ""
  trackViewUrl : String := ""
deriving DecidableEq, Repr

/-- Decoded iTunes lookup payload (main.go lines 207-214). -/
structure IOSPayload where
  resultCount : Nat := 0
  results : List IOSResult := []
deriving DecidableEq, Repr

/-- The goquery selector results `fetchAndroidDirect` reads from a Play
Store app page (main.go lines 282-292). -/
structure AndroidDoc where
  h1SpanText : String := ""
  titleText : String := ""
  authorSpanText : String := ""
  devLinkSpanText : String := ""
deriving DecidableEq, Repr

/-- A Play Store search page, reduced to the `href` values of its
`a[href*='/store/apps/details?id=']` anchors in document order
(main.go line 339; the selector only matches anchors that have `href`). -/
structure SearchDoc where
  detailLinks : List String := []
deriving DecidableEq, Repr

/-- Network oracle: `httpClient.Get` keyed by the full request URL, composed
with the body interpretation done at each call site (JSON decoding for the
lookup endpoint, goquery parsing for the two HTML pages; the inner `Except`
is that decoding/parsing step's own failure). -/
structure Net where
  getIOS : String → HttpOutcome (Except String IOSPayload)
  getPage : String → HttpOutcome (Except String AndroidDoc)
  getSearch : String → HttpOutcome (Except String SearchDoc)

/-! ## Field-list parsing and output (`main.go` lines 90-178) -/

/-- Loop body of `parseFields` (main.go lines 94-113): trim each part, skip
blanks, reject unknown names, de-duplicate keeping first occurrence order;
an empty result is an error.  `res.contains f` coincides with the source's
`seen[f]`, since `res` accumulates exactly the seen fields. -/
def parseFieldsAux : List String → List Field → Except String (List Field)
  | [], res => if res = [] then .error "no valid fields specified" else .ok res
  | p :: ps, res =>
    let q := goTrimSpace p
    if q = "" then parseFieldsAux ps res
    else if allowedFields.contains q then
      if res.contains q then parseFieldsAux ps res
      else parseFieldsAux ps (res ++ [q])
    else
      let gq := goQuote q
      .error s!"unknown field {gq}"

/-- Go `strings.Split(csv, ",")`: `splitOnChar` at character level, pieces
repacked as strings. -/
def goSplitComma (csv : String) : List String :=
  (splitOnChar ',' csv.data).map fun l => ⟨l⟩

/-- `parseFields` (main.go lines 90-114): split the flag value on commas and
run the loop. -/
def parseFields (csv : String) : Except String (List Field) :=
  parseFieldsAux (goSplitComma csv) []

/-- `strings.ReplaceAll s pat rep` for a one-character pattern and
replacement, as used by `sanitize`: a character-wise map. -/
def replaceAllChar (pat rep : Char) (s : String) : String :=
  ⟨s.data.map fun c => if c = pat then rep else c⟩

/-- `sanitize` (main.go lines 169-178): replace tab, CR and LF by spaces,
then `strings.TrimSpace`. -/
def sanitize (s : String) : String :=
  if s = "" then s
  else goTrimSpace (replaceAllChar '\n' ' ' (replaceAllChar '\r' ' ' (replaceAllChar '\t' ' ' s)))

/-- The `switch` of `printFields` (main.go lines 156-163): pick the record
attribute named by the field; the `val` variable stays empty on the
(unreachable) default. -/
def getField (rec : record) (f : Field) : String :=
  if f = FieldName then rec.Name
  else if f = FieldPublisher then rec.Publisher
  else if f = FieldURL then rec.URL
  else ""

/-- The row string `printFields` writes (main.go lines 152-167): sanitized
values joined by tabs.  The trailing newline of `Fprintln` is the list
element boundary in this model. -/
def printFieldsRow (rec : record) (fields : List Field) : String :=
  String.intercalate "\t" (fields.map fun f => sanitize (getField rec f))

/-- The header row `printHeader` writes (main.go lines 144-150). -/
def printHeaderRow (fields : List Field) : String :=
  String.intercalate "\t" fields

/-! ## Platform detection (`main.go` lines 79-82, 180-189) -/

/-- The character class `[A-Za-z0-9_]` of `reAndroid`. -/
def isWordChar (c : Char) : Bool :=
  c.isAlphanum || c = '_'

/-- `reIOS = ^[0-9]+$` (main.go line 80): non-empty, all ASCII digits. -/
def reIOSMatch (s : String) : Bool :=
  !s.data.isEmpty && s.data.all Char.isDigit

/-- `reAndroid = ^[A-Za-z0-9_]+(\.[A-Za-z0-9_]+)+$` (main.go line 81): split
at dots, the regex accepts exactly the strings with at least two segments,
each non-empty and made of word characters. -/
def reAndroidMatch (s : String) : Bool :=
  let parts := splitOnChar '.' s.data
  decide (2 ≤ parts.length) && parts.all fun p => !p.isEmpty && p.all isWordChar

/-! ## iOS resolver (`main.go` lines 193-243) -/

/-- The lookup URL built at main.go lines 195-198. -/
def iosLookupURL (appID country : String) : String :=
  let u := s!"https://itunes.apple.com/lookup?id={appID}"
  if country ≠ "" then u ++ "&country=" ++ country else u

/-- The canonical store URL of main.go lines 227 and 242. -/
def canonicalIOSURL (appID : String) : String :=
  s!"https://apps.apple.com/app/id{appID}"

/-- The `lookup` closure inside `fetchIOS` (main.go lines 194-229): one GET,
non-200 statuses and decode failures are errors, an empty result set is
`not found`, and a successful record always carries the canonical URL
(the response's `trackViewUrl` is ignored). -/
def iosLookup (net : Net) (appID country : String) : record × Option String :=
  match net.getIOS (iosLookupURL appID country) with
  | .transportError e => ({}, some e)
  | .response code status body =>
    if code ≠ 200 then ({}, some s!"status {status}")
    else
      match body with
      | .error e => ({}, some e)
      | .ok payload =>
        if payload.resultCount = 0 ∨ payload.results = [] then ({}, some "not found")
        else
          match payload.results with
          | [] => ({}, some "not found")
          | res :: _ =>
            ({ Name := res.trackName, Publisher := res.sellerName,
               URL := canonicalIOSURL appID }, none)

/-- `fetchIOS` (main.go lines 193-243): lookup with no country, on failure
retry with country `jp`, on total failure return the canonical URL and the
first attempt's error. -/
def fetchIOS (net : Net) (appID : String) : Resolved :=
  let u1 := iosLookupURL appID ""
  let r1 := iosLookup net appID ""
  match r1.2 with
  | none => ⟨r1.1, none, [u1]⟩
  | some e =>
    let u2 := iosLookupURL appID "jp"
    let r2 := iosLookup net appID "jp"
    match r2.2 with
    | none => ⟨r2.1, none, [u1, u2]⟩
    | some _ => ⟨{ URL := canonicalIOSURL appID }, some e, [u1, u2]⟩

/-! ## Android resolver (`main.go` lines 245-381) -/

/-- `buildPlayStoreURL` (main.go lines 303-305). -/
def buildPlayStoreURL (pkg : String) : String :=
  s!"https://play.google.com/store/apps/details?id={pkg}"

/-- `fetchAndroidDirect` (main.go lines 267-301): GET the store page; on any
failure return the store URL and an error; otherwise extract the name from
`h1 span` with a `title`-tag fallback and the publisher from the author
element with a dev-link fallback; an empty name is the
`app not found or unable to parse` error. -/
def fetchAndroidDirect (net : Net) (pkg : String) : Resolved :=
  let storeURL := buildPlayStoreURL pkg
  match net.getPage storeURL with
  | .transportError e => ⟨{ URL := storeURL }, some e, [storeURL]⟩
  | .response code status body =>
    if code ≠ 200 then ⟨{ URL := storeURL }, some s!"status {status}", [storeURL]⟩
    else
      match body with
      | .error e => ⟨{ URL := storeURL }, some e, [storeURL]⟩
      | .ok doc =>
        let name0 := goTrimSpace doc.h1SpanText
        let name :=
          if name0 = "" then
            let title := goTrimSpace doc.titleText
            if goContains title " - Apps on Google Play" then
              goTrimSuffix title " - Apps on Google Play"
            else name0
          else name0
        let pub0 := goTrimSpace doc.authorSpanText
        let publisher := if pub0 = "" then goTrimSpace doc.devLinkSpanText else pub0
        if name = "" then
          ⟨{ URL := storeURL }, some "app not found or unable to parse", [storeURL]⟩
        else
          ⟨{ Name := name, Publisher := publisher, URL := storeURL }, none, [storeURL]⟩

/-- `isNotFoundError` (main.go lines 307-316) on the `Option String` error
model: a nil error is not not-found; otherwise look for the indicator
substrings. -/
def isNotFoundError : Option String → Bool
  | none => false
  | some m => goContains m "404" || goContains m "not found" || goContains m "unable to parse"

/-- Scan of the `key=value` pairs of a raw query for `queryGet`: skip empty
pairs, pairs containing `;` and pairs whose key or value fails unescaping;
return the first value bound to `key` (empty string when absent). -/
def queryGetAux (key : String) : List (List Char) → String
  | [] => ""
  | seg :: rest =>
    if seg = [] then queryGetAux key rest
    else if seg.contains ';' then queryGetAux key rest
    else
      let cut := cutAtChar '=' seg
      let k := cut.1
      let v := (cut.2).getD []
      match queryUnescape k, queryUnescape v with
      | some k0, some v0 => if k0 = key.data then ⟨v0⟩ else queryGetAux key rest
      | _, _ => queryGetAux key rest

/-- The query lookup `u.Query().Get(key)` of `extractPackageFromURL`:
split the raw query on `&` and scan the pairs. -/
def queryGet (raw : List Char) (key : String) : String :=
  queryGetAux key (splitOnChar '&' raw)

/-- `extractPackageFromURL` (main.go lines 366-381): make relative hrefs
absolute, parse the URL and return the `id` query parameter.  `url.Parse`'s
rejection of ASCII control characters is modelled; its fragment split at
`#` and query split at the first `?` follow the URL grammar. -/
def extractPackageFromURL (href : String) : String :=
  let h := if goStartsWith href "http" then href else "https://play.google.com" ++ href
  if h.data.any (fun c => decide (c.toNat < 0x20) || c.toNat = 0x7f) then ""
  else
    let beforeFrag := (cutAtChar '#' h.data).1
    match (cutAtChar '?' beforeFrag).2 with
    | none => queryGet [] "id"
    | some rawQuery => queryGet rawQuery "id"

/-- The search URL built at main.go lines 319-320. -/
def searchURLof (pkg : String) : String :=
  let q := queryEscape pkg
  s!"https://play.google.com/store/search?c=apps&q={q}"

/-- The `EachWithBreak` scan of main.go lines 338-357: first link whose
extracted package name is non-empty and case-insensitively equal to `pkg`. -/
def findPkgInLinks (pkg : String) : List String → Option String
  | [] => none
  | href :: rest =>
    let extracted := extractPackageFromURL href
    if extracted = "" then findPkgInLinks pkg rest
    else if goEqualFold extracted pkg then some extracted
    else findPkgInLinks pkg rest

/-- `searchAndroidPackage` (main.go lines 318-364): GET the search page and
scan its detail links; paired with the URL trace of the one request made. -/
def searchAndroidPackage (net : Net) (pkg : String) : Except String String × List String :=
  let sURL := searchURLof pkg
  match net.getSearch sURL with
  | .transportError e => (.error e, [sURL])
  | .response code status body =>
    if code ≠ 200 then (.error s!"search failed: {status}", [sURL])
    else
      match body with
      | .error e => (.error e, [sURL])
      | .ok doc =>
        match findPkgInLinks pkg doc.detailLinks with
        | some found => (.ok found, [sURL])
        | none => (.error "package not found in search results", [sURL])

/-- `fetchAndroid` (main.go lines 245-265): direct fetch; only a not-found
error triggers the search recovery and one retry under the corrected name;
a failed search returns the original error with the original URL; any other
error returns as-is with the original URL. -/
def fetchAndroid (net : Net) (pkg : String) : Resolved :=
  let r := fetchAndroidDirect net pkg
  match r.err with
  | none => r
  | some e =>
    if isNotFoundError (some e) then
      let sres := searchAndroidPackage net pkg
      match sres.1 with
      | .error _ => ⟨{ URL := buildPlayStoreURL pkg }, some e, r.trace ++ sres.2⟩
      | .ok correctPkg =>
        let r2 := fetchAndroidDirect net correctPkg
        ⟨r2.out, r2.err, r.trace ++ sres.2 ++ r2.trace⟩
    else ⟨{ URL := buildPlayStoreURL pkg }, some e, r.trace⟩

/-- `resolve` (main.go lines 180-189): regex platform detection, then the
matching fetcher; an unrecognized token is an immediate error with no
network request. -/
def resolve (net : Net) (id : String) : Resolved :=
  if reIOSMatch id then fetchIOS net id
  else if reAndroidMatch id then fetchAndroid net id
  else
    let gq := goQuote id
    ⟨{}, some s!"cannot detect platform for {gq}", []⟩

/-! ## Line processor (`main.go` lines 116-142) -/

/-- The loop body of `process` (main.go lines 122-139) for one scanned
line, returning the rows written to stdout and the diagnostics written to
stderr for that line: trim; a blank line yields one empty row (before the
skip-errors check); otherwise resolve, and on failure write one diagnostic
and either skip the line or still emit the (possibly partial) record row. -/
def processLine (net : Net) (fields : List Field) (skipErrors : Bool) (raw : String) :
    List String × List String :=
  let line := goTrimSpace raw
  if line = "" then ([printFieldsRow {} fields], [])
  else
    let r := resolve net line
    match r.err with
    | none => ([printFieldsRow r.out fields], [])
    | some e =>
      let gq := goQuote line
      let diag := s!"resolve {gq}: {e}"
      if skipErrors then ([], [diag]) else ([printFieldsRow r.out fields], [diag])

/-- `process` (main.go lines 116-142) over a scanned input (the
`bufio.Scanner` line list; the no-read-error case, where `s.Err()` is nil):
optional header first, then per line the loop body's stdout rows; stderr
collects the diagnostics. -/
def process (net : Net) (input : List String) (fields : List Field)
    (header skipErrors : Bool) : List String × List String :=
  ((if header then [printHeaderRow fields] else []) ++
     (input.map fun l => (processLine net fields skipErrors l).1).flatten,
   (input.map fun l => (processLine net fields skipErrors l).2).flatten)

/-! ## Claim-side definitions and concrete networks -/

deriving instance DecidableEq for Except

/-- The specification's reading of the Android pattern, stated in its own
words: alphanumeric/underscore segments joined by dots, at least two
segments.  Compared against the source regex embedding `reAndroidMatch`. -/
def androidClaim (s : String) : Prop :=
  ∃ ls : List (List Char), 2 ≤ ls.length ∧
    (∀ l ∈ ls, l ≠ [] ∧ ∀ c ∈ l, isWordChar c = true) ∧
    s.data = joinWith '.' ls

/-- Modelled from the spec: the quote doubling of the CSV serialization
mode of the Record Formatter.  The CSV writer is absent from
`src/cmd/bundleresolver/main.go` (the repository's `TestProcessCSVOutput`
drives it through a `csv` parameter that `process` there does not have);
the spec says internal quotes are doubled. -/
def doubleQuotes (s : String) : String :=
  ⟨(s.data.map fun c => if c = '"' then ['"', '"'] else [c]).flatten⟩

/-- Modelled from the spec: the CSV (delimiter-with-quoting) serialization
mode of the Record Formatter, absent from `src/cmd/bundleresolver/main.go`:
"values containing delimiter/quote/newline get quote-wrapped and internal
quotes doubled — RFC4180-style". -/
def csvQuote (v : String) : String :=
  if v.data.any (fun c => c = ',' || c = '"' || c = '\n') then
    "\"" ++ doubleQuotes v ++ "\""
  else v

/-- A network on which every request fails with a transport error. -/
def netDown : Net where
  getIOS := fun _ => .transportError "connection reset"
  getPage := fun _ => .transportError "connection reset"
  getSearch := fun _ => .transportError "connection reset"

/-- A network whose Play Store page requests all answer HTTP 404 and whose
search page lists `com.example.app`. -/
def net404 : Net where
  getIOS := fun _ => .transportError "unused"
  getPage := fun _ => .response 404 "404 Not Found" (.ok {})
  getSearch := fun _ =>
    .response 200 "200 OK" (.ok { detailLinks := ["/store/apps/details?id=com.example.app"] })

/-- A network whose Play Store page requests all answer HTTP 502. -/
def net502 : Net where
  getIOS := fun _ => .transportError "unused"
  getPage := fun _ => .response 502 "502 Bad Gateway" (.ok {})
  getSearch := fun _ => .response 200 "200 OK" (.ok {})

/-- A network where the page for `COM.example.app` parses but yields no
name (a not-found), the search lists the differently-cased
`com.example.app`, and every other page request fails in transport. -/
def netCase : Net where
  getIOS := fun _ => .transportError "unused"
  getPage := fun u =>
    if u = buildPlayStoreURL "COM.example.app" then .response 200 "200 OK" (.ok {})
    else .transportError "connection refused"
  getSearch := fun _ =>
    .response 200 "200 OK" (.ok { detailLinks := ["/store/apps/details?id=com.example.app"] })

/-! ## Lemmas: split/join duality (regex `reAndroid` vs. the spec wording) -/

theorem splitOnChar_ne_nil (sep : Char) (cs : List Char) : splitOnChar sep cs ≠ [] := by
  induction cs with
  | nil => simp [splitOnChar]
  | cons c cs ih =>
    simp only [splitOnChar]
    split
    · simp
    · split
      · simp
      · simp

theorem joinWith_splitOnChar (sep : Char) (cs : List Char) :
    joinWith sep (splitOnChar sep cs) = cs := by
  induction cs with
  | nil => rfl
  | cons c cs ih =>
    obtain ⟨l, ls, hls⟩ : ∃ l ls, splitOnChar sep cs = l :: ls := by
      cases hsp : splitOnChar sep cs with
      | nil => exact absurd hsp (splitOnChar_ne_nil sep cs)
      | cons l ls => exact ⟨l, ls, rfl⟩
    by_cases h : c = sep
    · subst h
      simp only [splitOnChar, if_pos rfl, hls, joinWith, List.nil_append]
      rw [← hls, ih]
    · simp only [splitOnChar, if_neg h, hls]
      cases ls with
      | nil =>
        simp only [joinWith]
        have : joinWith sep [l] = cs := by rw [← hls, ih]
        simpa [joinWith] using congrArg (c :: ·) this
      | cons l' ls' =>
        simp only [joinWith, List.cons_append]
        have : joinWith sep (l :: l' :: ls') = cs := by rw [← hls, ih]
        rw [← this]
        simp [joinWith]

theorem splitOnChar_no_sep (sep : Char) (l : List Char) (h : sep ∉ l) :
    splitOnChar sep l = [l] := by
  induction l with
  | nil => rfl
  | cons c cs ih =>
    have hc : c ≠ sep := fun hh => h (hh ▸ List.mem_cons_self c cs)
    have hcs : sep ∉ cs := fun hh => h (List.mem_cons_of_mem c hh)
    simp only [splitOnChar, if_neg hc, ih hcs]

theorem splitOnChar_append_sep (sep : Char) (l t : List Char) (h : sep ∉ l) :
    splitOnChar sep (l ++ sep :: t) = l :: splitOnChar sep t := by
  induction l with
  | nil => simp [splitOnChar]
  | cons c cs ih =>
    have hc : c ≠ sep := fun hh => h (hh ▸ List.mem_cons_self c cs)
    have hcs : sep ∉ cs := fun hh => h (List.mem_cons_of_mem c hh)
    simp only [List.cons_append, splitOnChar, if_neg hc, List.append_eq, ih hcs]

theorem splitOnChar_joinWith (sep : Char) (ls : List (List Char)) (hne : ls ≠ [])
    (h : ∀ l ∈ ls, sep ∉ l) : splitOnChar sep (joinWith sep ls) = ls := by
  induction ls with
  | nil => exact absurd rfl hne
  | cons l ls ih =>
    cases ls with
    | nil =>
      simp only [joinWith]
      exact splitOnChar_no_sep sep l (h l (List.mem_cons_self l []))
    | cons l' ls' =>
      simp only [joinWith]
      rw [splitOnChar_append_sep sep l _ (h l (List.mem_cons_self l _))]
      rw [ih (by simp) fun x hx => h x (List.mem_cons_of_mem l hx)]

theorem data_ne_nil_of_ne_empty {s : String} (h : s ≠ "") : s.data ≠ [] := by
  intro hd
  exact h (by cases s with | mk d => cases hd; rfl)

theorem reAndroidMatch_iff_androidClaim (s : String) :
    reAndroidMatch s = true ↔ androidClaim s := by
  constructor
  · intro h
    simp only [reAndroidMatch, Bool.and_eq_true, decide_eq_true_eq, List.all_eq_true] at h
    obtain ⟨h2, hall⟩ := h
    refine ⟨splitOnChar '.' s.data, h2, ?_, (joinWith_splitOnChar _ _).symm⟩
    intro l hl
    have hthis := hall l hl
    simp only [Bool.and_eq_true, List.all_eq_true, Bool.not_eq_true'] at hthis
    refine ⟨?_, hthis.2⟩
    intro hnil
    rw [hnil] at hthis
    simp at hthis
  · rintro ⟨ls, h2, hall, heq⟩
    have hnil : ls ≠ [] := by
      intro hh
      rw [hh] at h2
      simp at h2
    have hnosep : ∀ l ∈ ls, '.' ∉ l := by
      intro l hl hd
      exact absurd ((hall l hl).2 '.' hd) (by decide)
    simp only [reAndroidMatch, Bool.and_eq_true, decide_eq_true_eq, List.all_eq_true]
    rw [heq, splitOnChar_joinWith '.' ls hnil hnosep]
    refine ⟨h2, ?_⟩
    intro l hl
    simp only [Bool.and_eq_true, List.all_eq_true, Bool.not_eq_true']
    refine ⟨?_, (hall l hl).2⟩
    simp [List.isEmpty_iff, (hall l hl).1]

theorem dot_mem_of_reAndroidMatch (s : String) (h : reAndroidMatch s = true) :
    '.' ∈ s.data := by
  obtain ⟨ls, h2, _, heq⟩ := (reAndroidMatch_iff_androidClaim s).mp h
  match ls, h2 with
  | l :: l' :: ls', _ =>
    rw [heq]
    simp [joinWith]

theorem reIOSMatch_false_of_reAndroidMatch (s : String) (h : reAndroidMatch s = true) :
    reIOSMatch s = false := by
  have hdot := dot_mem_of_reAndroidMatch s h
  cases hio : reIOSMatch s with
  | false => rfl
  | true =>
    exfalso
    simp only [reIOSMatch, Bool.and_eq_true, List.all_eq_true] at hio
    exact absurd (hio.2 '.' hdot) (by decide)

/-- C1: for every trimmed non-empty input line, `resolve` classifies it as
iOS exactly when it consists only of digits, as Android exactly when it
matches `label(.label)+` (alphanumeric/underscore segments joined by dots,
at least two segments — `androidClaim`, stated in the claim's own words),
and otherwise returns the unrecognized-platform failure with an empty
request trace, i.e. without issuing any network call. -/
theorem resolve_platform_classification (net : Net) (s : String) (hne : s ≠ "") :
    (reIOSMatch s = true ↔ ∀ c ∈ s.data, c.isDigit = true) ∧
    (reAndroidMatch s = true ↔ androidClaim s) ∧
    (reIOSMatch s = true → resolve net s = fetchIOS net s) ∧
    (reAndroidMatch s = true → resolve net s = fetchAndroid net s) ∧
    (reIOSMatch s = false → reAndroidMatch s = false →
      resolve net s = ⟨{}, some s!"cannot detect platform for {goQuote s}", []⟩) := by
  have hdata := data_ne_nil_of_ne_empty hne
  refine ⟨?_, reAndroidMatch_iff_androidClaim s, ?_, ?_, ?_⟩
  · constructor
    · intro h
      simp only [reIOSMatch, Bool.and_eq_true, List.all_eq_true] at h
      exact h.2
    · intro h
      simp only [reIOSMatch, Bool.and_eq_true, List.all_eq_true]
      refine ⟨?_, h⟩
      cases hD : s.data with
      | nil => exact absurd hD hdata
      | cons a as => rfl
  · intro h
    simp [resolve, h]
  · intro h
    have hio := reIOSMatch_false_of_reAndroidMatch s h
    simp [resolve, hio, h]
  · intro h1 h2
    simp [resolve, h1, h2]

/-- Witness for C1 at the spec's own example `"not an id!"`: unrecognized,
immediate failure, no network call. -/
theorem resolve_platform_classification_witness :
    resolve netDown "not an id!" =
      ⟨{}, some "cannot detect platform for \"not an id!\"", []⟩ := by
  have h := (resolve_platform_classification netDown "not an id!" (by decide)).2.2.2.2
    (by decide) (by decide)
  exact h.trans (by decide)

/-- C2 (failing-input evaluation): `sanitize` only replaces tab, CR and LF,
so the ASCII control character U+0007 stays in its output, while the claim
(and the repository's own `TestSanitize`, which expects `"HelloWorld"`)
requires control/format characters to be removed. -/
theorem sanitize_keeps_control_character :
    sanitize "Hello\x07World" = "Hello\x07World" ∧
    '\x07' ∈ (sanitize "Hello\x07World").data := by
  decide

/-- C8 (failing-input evaluation): the claim's allowed set contains
`bundle` (as do the repository's own tests and README), but `parseFields`
rejects it: `allowedFields` only holds `name`, `publisher`, `url`. -/
theorem parseFields_rejects_bundle :
    parseFields "bundle" = .error "unknown field \"bundle\"" ∧
    allowedFields.contains "bundle" = false := by
  decide

theorem parseFieldsAux_skip_blank (p : String) (ps : List String) (res : List Field)
    (h : goTrimSpace p = "") : parseFieldsAux (p :: ps) res = parseFieldsAux ps res := by
  simp [parseFieldsAux, h]

theorem parseFieldsAux_all_blank (ps : List String) (h : ∀ p ∈ ps, goTrimSpace p = "") :
    parseFieldsAux ps [] = .error "no valid fields specified" := by
  induction ps with
  | nil => simp [parseFieldsAux]
  | cons p ps ih =>
    rw [parseFieldsAux_skip_blank p ps [] (h p (List.mem_cons_self p ps))]
    exact ih fun q hq => h q (List.mem_cons_of_mem p hq)

/-- C10: entries of the field list that are empty or whitespace-only after
trimming are silently skipped (`"name,,url"` is accepted as
`[name, url]`), and a fields string from which no valid field remains is
rejected with the `no valid fields specified` error rather than producing
an empty field list. -/
theorem parseFields_blank_entries :
    parseFields "name,,url" = .ok [FieldName, FieldURL] ∧
    (∀ p ps res, goTrimSpace p = "" → parseFieldsAux (p :: ps) res = parseFieldsAux ps res) ∧
    (∀ csv : String, ((goSplitComma csv).all fun p => goTrimSpace p == "") = true →
      parseFields csv = .error "no valid fields specified") := by
  refine ⟨by decide, parseFieldsAux_skip_blank, ?_⟩
  intro csv h
  simp only [List.all_eq_true, beq_iff_eq] at h
  unfold parseFields
  exact parseFieldsAux_all_blank _ h

/-- Witness for C10: the all-blank string `","` is rejected, and a
whitespace-only entry is skipped. -/
theorem parseFields_blank_entries_witness :
    parseFields "," = .error "no valid fields specified" ∧
    parseFieldsAux ["  ", "name"] [] = parseFieldsAux ["name"] [] :=
  ⟨parseFields_blank_entries.2.2 "," (by decide),
   parseFields_blank_entries.2.1 "  " ["name"] [] (by decide)⟩

/-! ## Lemmas: sanitizer and quoting -/

theorem replaceAllChar_data (pat rep : Char) (s : String) :
    (replaceAllChar pat rep s).data = s.data.map fun c => if c = pat then rep else c := rfl

theorem goTrimSpace_data (s : String) : (goTrimSpace s).data = goTrimList s.data := rfl

theorem mem_of_mem_goTrimList {c : Char} {cs : List Char} (h : c ∈ goTrimList cs) :
    c ∈ cs := by
  unfold goTrimList dropTrailing at h
  rw [List.mem_reverse] at h
  have h2 := (List.dropWhile_sublist goIsSpace).subset h
  rw [List.mem_reverse] at h2
  exact (List.dropWhile_sublist goIsSpace).subset h2

theorem tab_not_mem_sanitize (v : String) : '\t' ∉ (sanitize v).data := by
  unfold sanitize
  split
  · next h => rw [h]; decide
  · intro hmem
    rw [goTrimSpace_data] at hmem
    have h1 := mem_of_mem_goTrimList hmem
    rw [replaceAllChar_data, List.mem_map] at h1
    obtain ⟨a, ha, hfa⟩ := h1
    have ha' : a = '\t' := by
      by_cases hc : a = '\n'
      · rw [if_pos hc] at hfa; exact absurd hfa (by decide)
      · rwa [if_neg hc] at hfa
    rw [ha'] at ha
    rw [replaceAllChar_data, List.mem_map] at ha
    obtain ⟨b, hb, hfb⟩ := ha
    have hb' : b = '\t' := by
      by_cases hc : b = '\r'
      · rw [if_pos hc] at hfb; exact absurd hfb (by decide)
      · rwa [if_neg hc] at hfb
    rw [hb'] at hb
    rw [replaceAllChar_data, List.mem_map] at hb
    obtain ⟨d, hd, hfd⟩ := hb
    by_cases hc : d = '\t'
    · rw [if_pos hc] at hfd; exact absurd hfd (by decide)
    · rw [if_neg hc] at hfd; exact hc hfd

theorem doubleQuotes_chars_of_not_mem (cs : List Char) (h : '"' ∉ cs) :
    ((cs.map fun c => if c = '"' then ['"', '"'] else [c]).flatten) = cs := by
  induction cs with
  | nil => rfl
  | cons c cs ih =>
    have hc : c ≠ '"' := fun hh => h (hh ▸ List.mem_cons_self c cs)
    have hcs : '"' ∉ cs := fun hh => h (List.mem_cons_of_mem c hh)
    simp only [List.map_cons, List.flatten_cons, if_neg hc, List.singleton_append, ih hcs]

theorem doubleQuotes_of_not_mem (v : String) (h : '"' ∉ v.data) : doubleQuotes v = v := by
  cases v with
  | mk l => exact congrArg String.mk (doubleQuotes_chars_of_not_mem l h)

theorem doubleQuotes_chars_count (cs : List Char) :
    ((cs.map fun c => if c = '"' then ['"', '"'] else [c]).flatten).count '"' =
      2 * cs.count '"' := by
  induction cs with
  | nil => rfl
  | cons c cs ih =>
    by_cases hc : c = '"'
    · subst hc
      simp only [List.map_cons, List.flatten_cons, if_pos rfl, List.count_append,
        List.count_cons, ih]
      simp [Nat.mul_add]
      omega
    · simp only [List.map_cons, List.flatten_cons, if_neg hc, List.count_append,
        List.count_cons, ih]
      simp [List.count_singleton, hc]

/-- C9: in CSV mode (`csvQuote`, modelled from the spec because the CSV
writer is absent from the provided `main.go`), a value containing a comma
is wrapped in double quotes, and a value containing a double quote has
each quote doubled and the whole value wrapped in quotes; TSV mode applies
no quoting — `printFieldsRow` joins the sanitized values verbatim — and
`sanitize` replaces literal tabs with spaces, so no tab survives in a
value. -/
theorem formatter_quoting (v : String) :
    (',' ∈ v.data → '"' ∉ v.data → csvQuote v = "\"" ++ v ++ "\"") ∧
    ('"' ∈ v.data → csvQuote v = "\"" ++ doubleQuotes v ++ "\"") ∧
    (doubleQuotes v).data.count '"' = 2 * v.data.count '"' ∧
    '\t' ∉ (sanitize v).data ∧
    (∀ r fs, printFieldsRow r fs =
      String.intercalate "\t" (fs.map fun f => sanitize (getField r f))) := by
  refine ⟨?_, ?_, doubleQuotes_chars_count v.data, tab_not_mem_sanitize v, fun _ _ => rfl⟩
  · intro hc hq
    have hany : (v.data.any fun c => c = ',' || c = '"' || c = '\n') = true :=
      List.any_eq_true.mpr ⟨',', hc, by decide⟩
    rw [csvQuote, if_pos hany, doubleQuotes_of_not_mem v hq]
  · intro hq
    have hany : (v.data.any fun c => c = ',' || c = '"' || c = '\n') = true :=
      List.any_eq_true.mpr ⟨'"', hq, by decide⟩
    rw [csvQuote, if_pos hany]

/-- Witness for C9: a value holding a quote is wrapped and its quote
doubled; a value holding a comma is wrapped. -/
theorem formatter_quoting_witness :
    csvQuote "a\"b" = "\"a\"\"b\"" ∧ csvQuote "x,y" = "\"x,y\"" := by
  have h1 := (formatter_quoting "a\"b").2.1 (by decide)
  have h2 := (formatter_quoting "x,y").1 (by decide) (by decide)
  exact ⟨h1.trans (by decide), h2.trans (by decide)⟩

/-! ## Lemmas: iOS resolver -/

theorem iosLookup_cases (net : Net) (appID country : String) :
    ((iosLookup net appID country).2 = none →
      (iosLookup net appID country).1.URL = canonicalIOSURL appID) ∧
    ((iosLookup net appID country).2 ≠ none → (iosLookup net appID country).1 = {}) := by
  unfold iosLookup
  rcases net.getIOS (iosLookupURL appID country) with e | ⟨code, status, body⟩
  · simp
  · dsimp only
    split
    · simp
    · rcases body with e | payload
      · simp
      · dsimp only
        split
        · simp
        · split
          · simp
          · simp

theorem fetchIOS_url (net : Net) (appID : String) :
    (fetchIOS net appID).out.URL = canonicalIOSURL appID := by
  simp only [fetchIOS]
  rcases h1 : (iosLookup net appID "").2 with _ | e
  · exact (iosLookup_cases net appID "").1 h1
  · rcases h2 : (iosLookup net appID "jp").2 with _ | e2
    · exact (iosLookup_cases net appID "jp").1 h2
    · rfl

theorem fetchIOS_total_failure (net : Net) (appID : String) (e : String)
    (h1 : (iosLookup net appID "").2 = some e)
    (h2 : (iosLookup net appID "jp").2 ≠ none) :
    fetchIOS net appID =
      ⟨{ URL := canonicalIOSURL appID }, some e,
       [iosLookupURL appID "", iosLookupURL appID "jp"]⟩ := by
  simp only [fetchIOS]
  rw [h1]
  rcases h2' : (iosLookup net appID "jp").2 with _ | e2
  · exact absurd h2' h2
  · rfl

theorem fetchIOS_err_out (net : Net) (appID e : String)
    (h : (fetchIOS net appID).err = some e) :
    (fetchIOS net appID).out = { URL := canonicalIOSURL appID } := by
  simp only [fetchIOS] at h ⊢
  rcases h1 : (iosLookup net appID "").2 with _ | e1
  · rw [h1] at h
    simp at h
  · rw [h1] at h
    rcases h2 : (iosLookup net appID "jp").2 with _ | e2
    · rw [h2] at h
      simp at h
    · rfl

/-- C3: the record returned by `fetchIOS` always carries the canonical URL
built from the app ID — on success (the endpoint's `trackViewUrl` is
ignored) as well as on failure — and when both the no-locale attempt and
the `jp` retry fail it returns empty name and publisher, the canonical
URL, and the error of the original first attempt. -/
theorem fetchIOS_canonical_url (net : Net) (appID : String) :
    (fetchIOS net appID).out.URL = canonicalIOSURL appID ∧
    (∀ e, (iosLookup net appID "").2 = some e → (iosLookup net appID "jp").2 ≠ none →
      fetchIOS net appID =
        ⟨{ Name := "", Publisher := "", URL := canonicalIOSURL appID }, some e,
         [iosLookupURL appID "", iosLookupURL appID "jp"]⟩) :=
  ⟨fetchIOS_url net appID, fun e h1 h2 => fetchIOS_total_failure net appID e h1 h2⟩

/-- Witness for C3: on a network where every request fails in transport,
`fetchIOS` returns the canonical URL, empty name/publisher, and the first
attempt's error, after the two lookup calls. -/
theorem fetchIOS_canonical_url_witness :
    fetchIOS netDown "123" =
      ⟨{ URL := "https://apps.apple.com/app/id123" }, some "connection reset",
       ["https://itunes.apple.com/lookup?id=123",
        "https://itunes.apple.com/lookup?id=123&country=jp"]⟩ := by
  have h := (fetchIOS_canonical_url netDown "123").2 "connection reset" (by decide) (by decide)
  exact h.trans (by decide)

/-! ## Lemmas: Android resolver -/

theorem fetchAndroidDirect_url_trace (net : Net) (pkg : String) :
    (fetchAndroidDirect net pkg).out.URL = buildPlayStoreURL pkg ∧
    (fetchAndroidDirect net pkg).trace = [buildPlayStoreURL pkg] := by
  simp only [fetchAndroidDirect]
  rcases net.getPage (buildPlayStoreURL pkg) with e | ⟨code, status, body⟩
  · exact ⟨rfl, rfl⟩
  · dsimp only
    split
    · exact ⟨rfl, rfl⟩
    · rcases body with e | doc
      · exact ⟨rfl, rfl⟩
      · dsimp only
        repeat' split
        all_goals exact ⟨rfl, rfl⟩

theorem fetchAndroidDirect_split (net : Net) (pkg : String) :
    (fetchAndroidDirect net pkg).err = none ∨
    fetchAndroidDirect net pkg =
      ⟨{ URL := buildPlayStoreURL pkg }, (fetchAndroidDirect net pkg).err,
       [buildPlayStoreURL pkg]⟩ := by
  simp only [fetchAndroidDirect]
  rcases net.getPage (buildPlayStoreURL pkg) with e | ⟨code, status, body⟩
  · exact Or.inr rfl
  · dsimp only
    split
    · exact Or.inr rfl
    · rcases body with e | doc
      · exact Or.inr rfl
      · dsimp only
        repeat' split
        all_goals first | exact Or.inl rfl | exact Or.inr rfl

theorem fetchAndroidDirect_err_out (net : Net) (pkg e : String)
    (h : (fetchAndroidDirect net pkg).err = some e) :
    (fetchAndroidDirect net pkg).out = { URL := buildPlayStoreURL pkg } := by
  rcases fetchAndroidDirect_split net pkg with hn | heq
  · rw [h] at hn
    exact absurd hn (by simp)
  · rw [heq]

theorem fetchAndroidDirect_transport (net : Net) (pkg m : String)
    (h : net.getPage (buildPlayStoreURL pkg) = .transportError m) :
    fetchAndroidDirect net pkg =
      ⟨{ URL := buildPlayStoreURL pkg }, some m, [buildPlayStoreURL pkg]⟩ := by
  simp only [fetchAndroidDirect, h]

theorem fetchAndroidDirect_badStatus (net : Net) (pkg : String) (code : Nat)
    (status : String) (body : Except String AndroidDoc)
    (h : net.getPage (buildPlayStoreURL pkg) = .response code status body)
    (hc : code ≠ 200) :
    fetchAndroidDirect net pkg =
      ⟨{ URL := buildPlayStoreURL pkg }, some s!"status {status}",
       [buildPlayStoreURL pkg]⟩ := by
  simp only [fetchAndroidDirect, h]
  rw [if_pos hc]

theorem searchAndroidPackage_trace (net : Net) (pkg : String) :
    (searchAndroidPackage net pkg).2 = [searchURLof pkg] := by
  simp only [searchAndroidPackage]
  rcases net.getSearch (searchURLof pkg) with e | ⟨code, status, body⟩
  · rfl
  · dsimp only
    split
    · rfl
    · rcases body with e | doc
      · rfl
      · dsimp only
        rcases findPkgInLinks pkg doc.detailLinks with _ | f
        · rfl
        · rfl

theorem fetchAndroid_cases (net : Net) (pkg e : String)
    (h : (fetchAndroidDirect net pkg).err = some e) :
    (isNotFoundError (some e) = false →
      fetchAndroid net pkg =
        ⟨{ URL := buildPlayStoreURL pkg }, some e, [buildPlayStoreURL pkg]⟩) ∧
    (isNotFoundError (some e) = true →
      (∀ e2, (searchAndroidPackage net pkg).1 = .error e2 →
        fetchAndroid net pkg =
          ⟨{ URL := buildPlayStoreURL pkg }, some e,
           [buildPlayStoreURL pkg, searchURLof pkg]⟩) ∧
      (∀ cp, (searchAndroidPackage net pkg).1 = .ok cp →
        fetchAndroid net pkg =
          ⟨(fetchAndroidDirect net cp).out, (fetchAndroidDirect net cp).err,
           [buildPlayStoreURL pkg, searchURLof pkg, buildPlayStoreURL cp]⟩)) := by
  have htr := (fetchAndroidDirect_url_trace net pkg).2
  have hst := searchAndroidPackage_trace net pkg
  constructor
  · intro hnf
    simp [fetchAndroid, h, hnf, htr]
  · intro hnf
    refine ⟨fun e2 hs => ?_, fun cp hs => ?_⟩
    · simp [fetchAndroid, h, hnf, hs, htr, hst]
    · simp [fetchAndroid, h, hnf, hs, htr, hst, (fetchAndroidDirect_url_trace net cp).2]

/-- C4 (amended): on the Android path, exactly the errors matched by the
code's not-found test (`isNotFoundError`: message containing `404`,
`not found` or `unable to parse` — which includes an HTTP 404 response,
whose error text is `status 404 Not Found`) trigger the search recovery
and at most one retry of the direct fetch; a transport error or non-2xx
status not so matched returns immediately after the single direct request,
with no further network call. -/
theorem fetchAndroid_retry_policy (net : Net) (pkg : String) :
    (∀ m, net.getPage (buildPlayStoreURL pkg) = .transportError m →
      isNotFoundError (some m) = false →
      fetchAndroid net pkg =
        ⟨{ URL := buildPlayStoreURL pkg }, some m, [buildPlayStoreURL pkg]⟩) ∧
    (∀ code status body, net.getPage (buildPlayStoreURL pkg) = .response code status body →
      code ≠ 200 → isNotFoundError (some s!"status {status}") = false →
      fetchAndroid net pkg =
        ⟨{ URL := buildPlayStoreURL pkg }, some s!"status {status}",
         [buildPlayStoreURL pkg]⟩) ∧
    (∀ e, (fetchAndroidDirect net pkg).err = some e → isNotFoundError (some e) = true →
      (∀ e2, (searchAndroidPackage net pkg).1 = .error e2 →
        fetchAndroid net pkg =
          ⟨{ URL := buildPlayStoreURL pkg }, some e,
           [buildPlayStoreURL pkg, searchURLof pkg]⟩) ∧
      (∀ cp, (searchAndroidPackage net pkg).1 = .ok cp →
        fetchAndroid net pkg =
          ⟨(fetchAndroidDirect net cp).out, (fetchAndroidDirect net cp).err,
           [buildPlayStoreURL pkg, searchURLof pkg, buildPlayStoreURL cp]⟩)) := by
  refine ⟨?_, ?_, ?_⟩
  · intro m hg hnf
    have hd := fetchAndroidDirect_transport net pkg m hg
    have he : (fetchAndroidDirect net pkg).err = some m := by rw [hd]
    exact (fetchAndroid_cases net pkg m he).1 hnf
  · intro code status body hg hc hnf
    have hd := fetchAndroidDirect_badStatus net pkg code status body hg hc
    have he : (fetchAndroidDirect net pkg).err = some s!"status {status}" := by rw [hd]
    exact (fetchAndroid_cases net pkg _ he).1 hnf
  · intro e he hnf
    exact (fetchAndroid_cases net pkg e he).2 hnf

/-- Witness for C4: a 502 response — not matched by the not-found test —
yields no retry: one request, the status error, the constructed URL. -/
theorem fetchAndroid_retry_policy_witness :
    fetchAndroid net502 "com.example.app" =
      ⟨{ URL := "https://play.google.com/store/apps/details?id=com.example.app" },
       some "status 502 Bad Gateway",
       ["https://play.google.com/store/apps/details?id=com.example.app"]⟩ := by
  have h := (fetchAndroid_retry_policy net502 "com.example.app").2.1 502 "502 Bad Gateway"
    (.ok {}) rfl (by decide) (by decide)
  exact h.trans (by decide)

/-- C4 counterexample: an HTTP 404 — a non-2xx status — does trigger the
search recovery and a retry, against the claim's "every other error kind
(transport error, non-2xx HTTP status) causes the resolver to return
without any retry": on `net404` the resolver issues three requests (direct
fetch, search, retried direct fetch), not one. -/
theorem fetchAndroid_status404_retries :
    net404.getPage (buildPlayStoreURL "com.example.app") =
      .response 404 "404 Not Found" (.ok {}) ∧
    (fetchAndroid net404 "com.example.app").trace =
      [buildPlayStoreURL "com.example.app", searchURLof "com.example.app",
       buildPlayStoreURL "com.example.app"] := by
  exact ⟨rfl, by decide⟩

/-- C5 (amended): whenever Android resolution fails, the returned record's
URL is the Play Store URL built from the originally supplied package name,
except when the search fallback found a corrected package name and the
retried fetch failed — then it is the Play Store URL built from the
corrected package name. -/
theorem fetchAndroid_failure_url (net : Net) (pkg : String)
    (h : (fetchAndroid net pkg).err ≠ none) :
    (fetchAndroid net pkg).out.URL = buildPlayStoreURL pkg ∨
    (∃ cp, (searchAndroidPackage net pkg).1 = .ok cp ∧
      (fetchAndroid net pkg).out.URL = buildPlayStoreURL cp) := by
  rcases hd : (fetchAndroidDirect net pkg).err with _ | e
  · have heq : fetchAndroid net pkg = fetchAndroidDirect net pkg := by
      simp only [fetchAndroid, hd]
    rw [heq, hd] at h
    exact absurd rfl h
  · cases hnf : isNotFoundError (some e) with
    | false =>
      left
      rw [(fetchAndroid_cases net pkg e hd).1 hnf]
    | true =>
      rcases hs : (searchAndroidPackage net pkg).1 with e2 | cp
      · left
        rw [((fetchAndroid_cases net pkg e hd).2 hnf).1 e2 hs]
      · right
        refine ⟨cp, rfl, ?_⟩
        rw [((fetchAndroid_cases net pkg e hd).2 hnf).2 cp hs]
        exact (fetchAndroidDirect_url_trace net cp).1

/-- Witness for C5 (amended): a failed resolution on an all-down network
carries a URL satisfying the dichotomy (here: the original URL). -/
theorem fetchAndroid_failure_url_witness :
    (fetchAndroid netDown "com.example.app").err = some "connection reset" ∧
    ((fetchAndroid netDown "com.example.app").out.URL =
        buildPlayStoreURL "com.example.app" ∨
      ∃ cp, (searchAndroidPackage netDown "com.example.app").1 = .ok cp ∧
        (fetchAndroid netDown "com.example.app").out.URL = buildPlayStoreURL cp) :=
  ⟨by decide, fetchAndroid_failure_url netDown "com.example.app" (by decide)⟩

/-- C5 counterexample: on `netCase` the input `COM.example.app` is
corrected by the search to `com.example.app`, the retried fetch fails, and
the failed resolution's URL is built from the corrected name, not from the
originally supplied one. -/
theorem fetchAndroid_corrected_url_cex :
    (fetchAndroid netCase "COM.example.app").err = some "connection refused" ∧
    (fetchAndroid netCase "COM.example.app").out.URL ≠
      buildPlayStoreURL "COM.example.app" ∧
    (fetchAndroid netCase "COM.example.app").out.URL =
      buildPlayStoreURL "com.example.app" := by
  decide

/-! ## Lemmas: line processor -/

theorem fetchAndroid_err_partial (net : Net) (pkg e : String)
    (h : (fetchAndroid net pkg).err = some e) :
    (fetchAndroid net pkg).out.Name = "" ∧ (fetchAndroid net pkg).out.Publisher = "" := by
  rcases hd : (fetchAndroidDirect net pkg).err with _ | e0
  · have heq : fetchAndroid net pkg = fetchAndroidDirect net pkg := by
      simp only [fetchAndroid, hd]
    rw [heq, hd] at h
    exact absurd h (by simp)
  · cases hnf : isNotFoundError (some e0) with
    | false =>
      rw [(fetchAndroid_cases net pkg e0 hd).1 hnf]
      exact ⟨rfl, rfl⟩
    | true =>
      rcases hs : (searchAndroidPackage net pkg).1 with e2 | cp
      · rw [((fetchAndroid_cases net pkg e0 hd).2 hnf).1 e2 hs]
        exact ⟨rfl, rfl⟩
      · have heq := ((fetchAndroid_cases net pkg e0 hd).2 hnf).2 cp hs
        rw [heq] at h ⊢
        have hout := fetchAndroidDirect_err_out net cp e h
        dsimp only
        rw [hout]
        exact ⟨rfl, rfl⟩

theorem resolve_err_partial (net : Net) (id e : String)
    (h : (resolve net id).err = some e) :
    (resolve net id).out.Name = "" ∧ (resolve net id).out.Publisher = "" := by
  simp only [resolve] at h ⊢
  by_cases h1 : reIOSMatch id = true
  · rw [if_pos h1] at h ⊢
    have hout := fetchIOS_err_out net id e h
    rw [hout]
    exact ⟨rfl, rfl⟩
  · rw [if_neg h1] at h ⊢
    by_cases h2 : reAndroidMatch id = true
    · rw [if_pos h2] at h ⊢
      exact fetchAndroid_err_partial net id e h
    · rw [if_neg h2]
      exact ⟨rfl, rfl⟩

/-- C6: for a non-blank line whose resolution fails, the loop body emits no
stdout row when skip-errors is enabled and one row carrying the partial
record when it is disabled, and in both cases writes exactly one stderr
diagnostic `resolve "<token>": <reason>`; the partial record has empty
name and publisher (only its URL may be populated). -/
theorem processLine_failed_line (net : Net) (fields : List Field) (skipErrors : Bool)
    (raw e : String) (hb : goTrimSpace raw ≠ "")
    (he : (resolve net (goTrimSpace raw)).err = some e) :
    processLine net fields skipErrors raw =
      ((if skipErrors then []
        else [printFieldsRow (resolve net (goTrimSpace raw)).out fields]),
       [s!"resolve {goQuote (goTrimSpace raw)}: {e}"]) ∧
    (resolve net (goTrimSpace raw)).out.Name = "" ∧
    (resolve net (goTrimSpace raw)).out.Publisher = "" := by
  refine ⟨?_, resolve_err_partial net (goTrimSpace raw) e he⟩
  simp only [processLine]
  rw [if_neg hb, he]
  cases skipErrors with
  | false => rfl
  | true => rfl

/-- Witness for C6: the unrecognized line `not an id!` with skip-errors
enabled emits no row and exactly one diagnostic. -/
theorem processLine_failed_line_witness :
    processLine netDown [FieldName] true "not an id!" =
      ([], ["resolve \"not an id!\": cannot detect platform for \"not an id!\""]) := by
  have h := (processLine_failed_line netDown [FieldName] true "not an id!"
    "cannot detect platform for \"not an id!\"" (by decide) (by decide)).1
  exact h.trans (by decide)

theorem printFieldsRow_empty_record (fields : List Field) :
    printFieldsRow {} fields = String.intercalate "\t" (fields.map fun _ => "") := by
  unfold printFieldsRow
  congr 1
  induction fields with
  | nil => rfl
  | cons f fs ih =>
    simp only [List.map_cons, ih]
    congr 1
    unfold getField
    split
    · decide
    · split
      · decide
      · split
        · decide
        · decide

/-- C7: a line that is blank after trimming makes the loop body emit
exactly one stdout row with every requested field empty and no diagnostic;
the right-hand side does not depend on the network oracle (no resolution
happens) nor on the skip-errors flag (error-skipping applies only to
failed non-blank lines). -/
theorem processLine_blank_line (net : Net) (fields : List Field) (skipErrors : Bool)
    (raw : String) (hb : goTrimSpace raw = "") :
    processLine net fields skipErrors raw =
      ([String.intercalate "\t" (fields.map fun _ => "")], []) := by
  simp only [processLine]
  rw [if_pos hb, printFieldsRow_empty_record]

/-- Witness for C7: a whitespace-only line under skip-errors still yields
one empty two-column row. -/
theorem processLine_blank_line_witness :
    processLine netDown [FieldName, FieldURL] true "   " = (["\t"], []) := by
  have h := processLine_blank_line netDown [FieldName, FieldURL] true "   " (by decide)
  exact h.trans (by decide)

end BundleResolver
